import Mathlib

/-!
Verification of the itre binary message decoder (src/decoder.rs).

The decoder turns a byte buffer into a message tree.  Buffers are modelled
as lists of natural numbers (one per byte); the shared forward-only cursor
of the Rust code is modelled by returning the remaining buffer alongside
each result.  A Rust String is its UTF-8 byte content, so it is modelled as
a byte list together with an executable UTF-8 validity check.

The repository's consts module, its Message and Emo enum declarations and
part of its error enum are not under src/ (only decoder.rs and
message/error.rs are); those pieces are modelled from the spec and are
marked as such in their doc comments.  All decoding logic is translated
from src/decoder.rs.
-/

namespace Itre

/-- Modelled from the spec (section 3): the Emoticon enumeration
declared in the repository's message module, which is not under src/.
Variants as used by Emo::decode_from in src/decoder.rs. -/
inductive Emo : Type where
  | nop : Emo
  | laugh : Emo
  | cry : Emo
deriving DecidableEq

/-- Modelled from the spec (section 3): the Message tagged union declared in
the repository's message module, which is not under src/.  Variants as
constructed by Message::decode_from in src/decoder.rs.  A Rust String is
represented by its UTF-8 byte content.  The Image variant is declared but
never constructed by the decoder. -/
inductive Message : Type where
  | nop : Message
  | text (s : List Nat) : Message
  | emo (e : Emo) : Message
  | image : Message
  | compound (ms : List Message) : Message

/-- The decode error enum.  InvalidTypeCode and IOError are declared in
src/message/error.rs; InvalidEmoCode is additionally used by
src/decoder.rs (its declaration is outside src/). -/
inductive Error : Type where
  | invalidTypeCode (b : Nat) : Error
  | invalidEmoCode (b : Nat) : Error
  | ioError : Error
deriving DecidableEq

/-- Outcome of one decode step.  ok and err carry the remaining buffer (the
position of the shared cursor).  panicked models a Rust panic or abort:
out-of-bounds slice indexing, a failed from_utf8 unwrap, or the
unimplemented Image arm.  fuelOut is an artifact of the fuel-indexed
presentation of the recursion below and is unreachable from the top-level
entry points, whose fuel exceeds the buffer length. -/
inductive DResult (α : Type) : Type where
  | ok (a : α) (rest : List Nat) : DResult α
  | err (e : Error) (rest : List Nat) : DResult α
  | panicked : DResult α
  | fuelOut : DResult α
deriving DecidableEq

/-- Modelled from the spec (sections 6 and 9): the constants of the
repository's consts module, which is not under src/.  The decoder is
parameterized over them; the spec leaves the slice maxima and sentinel
values open (section 9). -/
structure Consts : Type where
  MESSAGE_TYPE_CODE_NOP : Nat
  MESSAGE_TYPE_CODE_TEXT : Nat
  MESSAGE_TYPE_CODE_EMO : Nat
  MESSAGE_TYPE_CODE_IMAGE : Nat
  MESSAGE_TYPE_CODE_COMPOUND : Nat
  MESSAGE_EMO_CODE_NOP : Nat
  MESSAGE_EMO_CODE_LAUGH : Nat
  MESSAGE_EMO_CODE_CRY : Nat
  TEXT_OVERFLOW_FLAG : Nat
  TEXT_SLICE_MAX_LENGTH_S : Nat
  COMPOUND_OVERFLOW_FLAG : Nat
  COMPOUND_SLICE_MAX_LENGTH_S : Nat

/-- Sanity conditions every sane choice of constants satisfies: the byte
codes of the closed tag and emoticon tables are pairwise distinct, the
sentinels fit their wire fields, and each overflow sentinel is a reserved
value above every real length or count (spec glossary: distinct from any
real length). -/
structure Consts.WF (c : Consts) : Prop where
  text_ne_nop : c.MESSAGE_TYPE_CODE_TEXT ≠ c.MESSAGE_TYPE_CODE_NOP
  emo_ne_nop : c.MESSAGE_TYPE_CODE_EMO ≠ c.MESSAGE_TYPE_CODE_NOP
  emo_ne_text : c.MESSAGE_TYPE_CODE_EMO ≠ c.MESSAGE_TYPE_CODE_TEXT
  image_ne_nop : c.MESSAGE_TYPE_CODE_IMAGE ≠ c.MESSAGE_TYPE_CODE_NOP
  image_ne_text : c.MESSAGE_TYPE_CODE_IMAGE ≠ c.MESSAGE_TYPE_CODE_TEXT
  image_ne_emo : c.MESSAGE_TYPE_CODE_IMAGE ≠ c.MESSAGE_TYPE_CODE_EMO
  compound_ne_nop : c.MESSAGE_TYPE_CODE_COMPOUND ≠ c.MESSAGE_TYPE_CODE_NOP
  compound_ne_text : c.MESSAGE_TYPE_CODE_COMPOUND ≠ c.MESSAGE_TYPE_CODE_TEXT
  compound_ne_emo : c.MESSAGE_TYPE_CODE_COMPOUND ≠ c.MESSAGE_TYPE_CODE_EMO
  compound_ne_image : c.MESSAGE_TYPE_CODE_COMPOUND ≠ c.MESSAGE_TYPE_CODE_IMAGE
  laugh_ne_nop : c.MESSAGE_EMO_CODE_LAUGH ≠ c.MESSAGE_EMO_CODE_NOP
  cry_ne_nop : c.MESSAGE_EMO_CODE_CRY ≠ c.MESSAGE_EMO_CODE_NOP
  cry_ne_laugh : c.MESSAGE_EMO_CODE_CRY ≠ c.MESSAGE_EMO_CODE_LAUGH
  text_flag_bound : c.TEXT_OVERFLOW_FLAG < 65536
  text_max_lt_flag : c.TEXT_SLICE_MAX_LENGTH_S < c.TEXT_OVERFLOW_FLAG
  compound_flag_bound : c.COMPOUND_OVERFLOW_FLAG < 256
  compound_max_lt_flag : c.COMPOUND_SLICE_MAX_LENGTH_S < c.COMPOUND_OVERFLOW_FLAG

/-- Modelled from the spec: a concrete choice of constants.  The tag and
emoticon codes come from the spec's byte-exact scenarios (section 8: Text
0x80, Emo 0x82, Compound 0xfa, emoticon codes 0, 1, 2) and section 6 (Nop
0xfc).  The Image code, the slice maxima and the sentinels are left open by
the spec (section 9) and are chosen here; small maxima keep concrete
evaluation cheap. -/
def refConsts : Consts where
  MESSAGE_TYPE_CODE_NOP := 0xfc
  MESSAGE_TYPE_CODE_TEXT := 0x80
  MESSAGE_TYPE_CODE_EMO := 0x82
  MESSAGE_TYPE_CODE_IMAGE := 0x84
  MESSAGE_TYPE_CODE_COMPOUND := 0xfa
  MESSAGE_EMO_CODE_NOP := 0x00
  MESSAGE_EMO_CODE_LAUGH := 0x01
  MESSAGE_EMO_CODE_CRY := 0x02
  TEXT_OVERFLOW_FLAG := 0xffff
  TEXT_SLICE_MAX_LENGTH_S := 4
  COMPOUND_OVERFLOW_FLAG := 0xff
  COMPOUND_SLICE_MAX_LENGTH_S := 2

theorem refConsts_wf : refConsts.WF := by
  constructor <;> decide

/-- One byte is a UTF-8 continuation byte (0x80..0xBF). -/
def isCont (b : Nat) : Bool := 128 ≤ b && b < 192

/-- Executable UTF-8 well-formedness of a byte list, following the byte
ranges accepted by Rust's str::from_utf8 (RFC 3629: no overlong forms, no
surrogates, no code points above U+10FFFF). -/
def validUtf8 : List Nat → Bool
  | [] => true
  | b :: r =>
    if b < 128 then validUtf8 r
    else if b < 194 then false
    else if b < 224 then
      match r with
      | k1 :: r2 => isCont k1 && validUtf8 r2
      | _ => false
    else if b = 224 then
      match r with
      | k1 :: k2 :: r2 => (160 ≤ k1 && k1 < 192) && isCont k2 && validUtf8 r2
      | _ => false
    else if b < 237 then
      match r with
      | k1 :: k2 :: r2 => isCont k1 && isCont k2 && validUtf8 r2
      | _ => false
    else if b = 237 then
      match r with
      | k1 :: k2 :: r2 => (128 ≤ k1 && k1 < 160) && isCont k2 && validUtf8 r2
      | _ => false
    else if b < 240 then
      match r with
      | k1 :: k2 :: r2 => isCont k1 && isCont k2 && validUtf8 r2
      | _ => false
    else if b = 240 then
      match r with
      | k1 :: k2 :: k3 :: r2 => (144 ≤ k1 && k1 < 192) && isCont k2 && isCont k3 && validUtf8 r2
      | _ => false
    else if b < 244 then
      match r with
      | k1 :: k2 :: k3 :: r2 => isCont k1 && isCont k2 && isCont k3 && validUtf8 r2
      | _ => false
    else if b = 244 then
      match r with
      | k1 :: k2 :: k3 :: r2 => (128 ≤ k1 && k1 < 144) && isCont k2 && isCont k3 && validUtf8 r2
      | _ => false
    else false

/-- The loop of String::decode_from (src/decoder.rs lines 18-33), fuel
indexed.  Each iteration reads a 2-byte big-endian length prefix (a panic
if fewer than 2 bytes remain, as for the Rust slice index buf[0..2]); the
sentinel length means one full slice of TEXT_SLICE_MAX_LENGTH_S bytes
followed by further slices, any other length means a terminal slice of
exactly that many bytes.  Each slice is UTF-8 checked (unwrap: a panic on
invalid bytes) and appended to the accumulator.  One fuel unit is spent
per iteration; an iteration consumes at least two buffer bytes, so fuel
exceeding the buffer length never runs out. -/
def decodeStringLoopF (c : Consts) : Nat → List Nat → List Nat → DResult (List Nat)
  | 0, _, _ => .fuelOut
  | f + 1, b0 :: b1 :: r, acc =>
    if b0 * 256 + b1 = c.TEXT_OVERFLOW_FLAG then
      if c.TEXT_SLICE_MAX_LENGTH_S ≤ r.length then
        if validUtf8 (r.take c.TEXT_SLICE_MAX_LENGTH_S) then
          decodeStringLoopF c f (r.drop c.TEXT_SLICE_MAX_LENGTH_S)
            (acc ++ r.take c.TEXT_SLICE_MAX_LENGTH_S)
        else .panicked
      else .panicked
    else
      if b0 * 256 + b1 ≤ r.length then
        if validUtf8 (r.take (b0 * 256 + b1)) then
          .ok (acc ++ r.take (b0 * 256 + b1)) (r.drop (b0 * 256 + b1))
        else .panicked
      else .panicked
  | _ + 1, _, _ => .panicked

/-- String::decode_from (src/decoder.rs lines 15-36): run the slice loop
with an empty accumulator.  The initial fuel strictly exceeds the buffer
length, so the fuel never runs out. -/
def String.decode_from (c : Consts) (bs : List Nat) : DResult (List Nat) :=
  decodeStringLoopF c (bs.length + 1) bs []

/-- Emo::decode_from (src/decoder.rs lines 38-50): read one byte (a panic
on an empty buffer, as for buf[0]), advance past it, and match it against
the closed emoticon table; an unknown byte is an InvalidEmoCode error
carrying that byte, returned after the cursor has advanced. -/
def Emo.decode_from (c : Consts) (bs : List Nat) : DResult Emo :=
  match bs with
  | [] => .panicked
  | b :: r =>
    if b = c.MESSAGE_EMO_CODE_NOP then .ok .nop r
    else if b = c.MESSAGE_EMO_CODE_LAUGH then .ok .laugh r
    else if b = c.MESSAGE_EMO_CODE_CRY then .ok .cry r
    else .err (.invalidEmoCode b) r

/-- The for-loop of the Compound arm (src/decoder.rs lines 74-76 and
80-83): decode exactly n nested messages with the given decoder, pushing
each onto the accumulator, propagating the first failure. -/
def decodeMsgs (dec : List Nat → DResult Message) : Nat → List Nat → List Message →
    DResult (List Message)
  | 0, bs, acc => .ok acc bs
  | n + 1, bs, acc =>
    match dec bs with
    | .ok m rest => decodeMsgs dec n rest (acc ++ [m])
    | .err e r => .err e r
    | .panicked => .panicked
    | .fuelOut => .fuelOut

/-- The chunk loop of the Compound arm (src/decoder.rs lines 70-83), fuel
indexed: read a one-byte count (a panic on an empty buffer, as for
buf[0]); the sentinel count means a full chunk of
COMPOUND_SLICE_MAX_LENGTH_S nested messages followed by further chunks,
any other count means a terminal chunk of exactly that many nested
messages.  One fuel unit is spent per chunk; a chunk consumes at least its
count byte, so fuel exceeding the buffer length never runs out. -/
def decodeChunksF (c : Consts) (dec : List Nat → DResult Message) : Nat → List Nat →
    List Message → DResult (List Message)
  | 0, _, _ => .fuelOut
  | _ + 1, [], _ => .panicked
  | l + 1, cnt :: r, acc =>
    if cnt = c.COMPOUND_OVERFLOW_FLAG then
      match decodeMsgs dec c.COMPOUND_SLICE_MAX_LENGTH_S r acc with
      | .ok acc2 rest2 => decodeChunksF c dec l rest2 acc2
      | .err e rest2 => .err e rest2
      | .panicked => .panicked
      | .fuelOut => .fuelOut
    else decodeMsgs dec cnt r acc

/-- Message::decode_from (src/decoder.rs lines 52-90), fuel indexed: read
one tag byte (a panic on an empty buffer, as for buf[0]), advance past it,
and dispatch in the order of the Rust match arms: Nop, Text (delegate to
String::decode_from), Emo (delegate to Emo::decode_from), Image (a panic:
the unimplemented arm), Compound (the chunk loop), otherwise an
InvalidTypeCode error carrying the tag byte, returned after the cursor has
advanced.  Nested messages of a compound decode with one fuel unit less;
fuel bounds the nesting depth, and a nesting level consumes at least one
buffer byte, so fuel exceeding the buffer length never runs out. -/
def decodeMessageF (c : Consts) : Nat → List Nat → DResult Message
  | 0, _ => .fuelOut
  | fuel + 1, bs =>
    match bs with
    | [] => .panicked
    | t :: r =>
      if t = c.MESSAGE_TYPE_CODE_NOP then .ok .nop r
      else if t = c.MESSAGE_TYPE_CODE_TEXT then
        match String.decode_from c r with
        | .ok s rest => .ok (.text s) rest
        | .err e rest => .err e rest
        | .panicked => .panicked
        | .fuelOut => .fuelOut
      else if t = c.MESSAGE_TYPE_CODE_EMO then
        match Emo.decode_from c r with
        | .ok e rest => .ok (.emo e) rest
        | .err e rest => .err e rest
        | .panicked => .panicked
        | .fuelOut => .fuelOut
      else if t = c.MESSAGE_TYPE_CODE_IMAGE then .panicked
      else if t = c.MESSAGE_TYPE_CODE_COMPOUND then
        match decodeChunksF c (fun b2 => decodeMessageF c fuel b2) (r.length + 1) r [] with
        | .ok ms rest => .ok (.compound ms) rest
        | .err e rest => .err e rest
        | .panicked => .panicked
        | .fuelOut => .fuelOut
      else .err (.invalidTypeCode t) r

/-- Message::decode_from (src/decoder.rs lines 52-90), the top-level entry
point.  The initial fuel strictly exceeds the buffer length; every nesting
level consumes at least one byte of the buffer, so the fuel never runs
out. -/
def Message.decode_from (c : Consts) (bs : List Nat) : DResult Message :=
  decodeMessageF c (bs.length + 1) bs

/-- The wire format of a text field, following the spec's words (sections
4.1 and 6): any number of full slices, each of exactly
TEXT_SLICE_MAX_LENGTH_S bytes and introduced by the 2-byte big-endian
overflow sentinel, followed by one terminal slice introduced by its own
2-byte big-endian length, which is not the sentinel.  Every slice is
well-formed UTF-8.  The first index lists the slices in order, the second
is the byte encoding. -/
inductive WireSlices (c : Consts) : List (List Nat) → List Nat → Prop where
  | final {s : List Nat} :
      validUtf8 s = true → s.length < 65536 → s.length ≠ c.TEXT_OVERFLOW_FLAG →
      WireSlices c [s] (s.length / 256 :: s.length % 256 :: s)
  | overflow {s : List Nat} {u : List (List Nat)} {v : List Nat} :
      validUtf8 s = true → s.length = c.TEXT_SLICE_MAX_LENGTH_S →
      WireSlices c u v →
      WireSlices c (s :: u)
        (c.TEXT_OVERFLOW_FLAG / 256 :: c.TEXT_OVERFLOW_FLAG % 256 :: s ++ v)

mutual

/-- The wire format of one message, following the spec's words (sections 4.3
and 6): a one-byte type tag followed by the tag's payload.  A text payload
is a WireSlices encoding carrying the concatenation of its slices; a
compound payload is a WireChunks encoding carrying the concatenation of
its chunks.  The Image tag has no wire form (its payload format is
explicitly unimplemented). -/
inductive WireMsg (c : Consts) : Message → List Nat → Prop where
  | nop : WireMsg c .nop [c.MESSAGE_TYPE_CODE_NOP]
  | text {u : List (List Nat)} {v : List Nat} :
      WireSlices c u v →
      WireMsg c (.text (u.foldr (· ++ ·) [])) (c.MESSAGE_TYPE_CODE_TEXT :: v)
  | emoNop : WireMsg c (.emo .nop) [c.MESSAGE_TYPE_CODE_EMO, c.MESSAGE_EMO_CODE_NOP]
  | emoLaugh : WireMsg c (.emo .laugh) [c.MESSAGE_TYPE_CODE_EMO, c.MESSAGE_EMO_CODE_LAUGH]
  | emoCry : WireMsg c (.emo .cry) [c.MESSAGE_TYPE_CODE_EMO, c.MESSAGE_EMO_CODE_CRY]
  | compound {m : List Message} {v : List Nat} :
      WireChunks c m v →
      WireMsg c (.compound m) (c.MESSAGE_TYPE_CODE_COMPOUND :: v)

/-- The concatenated wire encodings of a sequence of messages, in order. -/
inductive WireMsgsE (c : Consts) : List Message → List Nat → Prop where
  | nil : WireMsgsE c [] []
  | cons {m : Message} {l : List Message} {v w : List Nat} :
      WireMsg c m v → WireMsgsE c l w → WireMsgsE c (m :: l) (v ++ w)

/-- The wire format of a compound payload, following the spec's words
(section 4.3): any number of full chunks, each of exactly
COMPOUND_SLICE_MAX_LENGTH_S nested messages and introduced by the one-byte
overflow sentinel count, followed by one terminal chunk introduced by its
real one-byte count, which is not the sentinel.  The first index is the
concatenation of the chunks' messages in order. -/
inductive WireChunks (c : Consts) : List Message → List Nat → Prop where
  | final {l : List Message} {v : List Nat} :
      l.length < 256 → l.length ≠ c.COMPOUND_OVERFLOW_FLAG →
      WireMsgsE c l v →
      WireChunks c l (l.length :: v)
  | overflow {l₁ l₂ : List Message} {v w : List Nat} :
      l₁.length = c.COMPOUND_SLICE_MAX_LENGTH_S →
      WireMsgsE c l₁ v → WireChunks c l₂ w →
      WireChunks c (l₁ ++ l₂) (c.COMPOUND_OVERFLOW_FLAG :: v ++ w)

end

/-- Running the text slice loop on a wire-format text encoding followed by any
suffix consumes exactly the encoding and appends the concatenation of the
slices to the accumulator, for any fuel exceeding the encoding's length. -/
theorem decodeStringLoopF_wire (c : Consts) {u : List (List Nat)} {v : List Nat}
    (h : WireSlices c u v) :
    ∀ fuel rest acc, v.length < fuel →
      decodeStringLoopF c fuel (v ++ rest) acc = .ok (acc ++ u.foldr (· ++ ·) []) rest := by
  induction h with
  | @final s hv hlt hne =>
    intro fuel rest acc hfuel
    obtain ⟨f, rfl⟩ : ∃ f, fuel = f + 1 := ⟨fuel - 1, by omega⟩
    have hL : s.length / 256 * 256 + s.length % 256 = s.length := by omega
    simp only [List.cons_append, decodeStringLoopF, hL, List.append_eq]
    rw [if_neg hne, if_pos (by simp), List.take_left, List.drop_left]
    simp [hv]
  | @overflow s u' v' hs hlen hw ih =>
    intro fuel rest acc hfuel
    obtain ⟨f, rfl⟩ : ∃ f, fuel = f + 1 := ⟨fuel - 1, by omega⟩
    have hF : c.TEXT_OVERFLOW_FLAG / 256 * 256 + c.TEXT_OVERFLOW_FLAG % 256
        = c.TEXT_OVERFLOW_FLAG := by omega
    simp only [List.cons_append, List.append_eq, List.append_assoc,
      decodeStringLoopF, hF, if_pos]
    rw [← hlen, List.take_left, List.drop_left]
    rw [if_pos (by simp), if_pos hs]
    rw [ih f rest (acc ++ s) (by simp at hfuel; omega)]
    simp

/-- String::decode_from on a wire-format text encoding followed by any suffix
consumes exactly the encoding and returns the concatenation of the slices. -/
theorem decode_from_text_wire (c : Consts) {u : List (List Nat)} {v : List Nat}
    (h : WireSlices c u v) (rest : List Nat) :
    String.decode_from c (v ++ rest) = .ok (u.foldr (· ++ ·) []) rest := by
  have := decodeStringLoopF_wire c h ((v ++ rest).length + 1) rest [] (by simp; omega)
  simpa [String.decode_from] using this

/-- Every wire-format message encoding is at least one byte long (the tag). -/
theorem WireMsg.length_pos {c : Consts} {m : Message} {v : List Nat} (h : WireMsg c m v) :
    0 < v.length := by
  cases h <;> simp

/-- Decoding a wire-format encoding followed by any suffix consumes exactly
the encoding and returns the encoded value, simultaneously for single
messages, message sequences and compound chunk sequences, for any fuel
exceeding the encoding's length.  Proved by strong induction on the bound n
on the encoding's byte length. -/
theorem wire_roundtrip (c : Consts) (h : c.WF) :
    ∀ n : Nat,
      (∀ m v, WireMsg c m v → v.length ≤ n → ∀ fuel rest, v.length < fuel →
        decodeMessageF c fuel (v ++ rest) = .ok m rest) ∧
      (∀ l v, WireMsgsE c l v → v.length ≤ n → ∀ f rest acc, v.length < f →
        decodeMsgs (fun b2 => decodeMessageF c f b2) l.length (v ++ rest) acc
          = .ok (acc ++ l) rest) ∧
      (∀ l v, WireChunks c l v → v.length ≤ n → ∀ lf f rest acc, v.length < lf →
        v.length ≤ f →
        decodeChunksF c (fun b2 => decodeMessageF c f b2) lf (v ++ rest) acc
          = .ok (acc ++ l) rest) := by
  intro n
  induction n with
  | zero =>
    refine ⟨?_, ?_, ?_⟩
    · intro m v hw hle
      exact absurd hle (by have := hw.length_pos; omega)
    · intro l v hw hle f rest acc hf
      cases hw with
      | nil => simp [decodeMsgs]
      | @cons m l' v1 v2 h1 h2 =>
        have := h1.length_pos
        simp only [List.length_append] at hle
        omega
    · intro l v hw hle
      cases hw <;> simp at hle
  | succ n ih =>
    obtain ⟨ihA, ihB, ihC⟩ := ih
    have hA : ∀ m v, WireMsg c m v → v.length ≤ n + 1 → ∀ fuel rest, v.length < fuel →
        decodeMessageF c fuel (v ++ rest) = .ok m rest := by
      intro m v hw hle fuel rest hfuel
      obtain ⟨f, rfl⟩ : ∃ f, fuel = f + 1 := ⟨fuel - 1, by omega⟩
      cases hw with
      | nop => simp [decodeMessageF]
      | @text u v' hsl =>
        simp only [List.cons_append, decodeMessageF]
        rw [if_neg h.text_ne_nop, if_true, decode_from_text_wire c hsl rest]
      | emoNop =>
        simp only [List.cons_append, decodeMessageF]
        rw [if_neg h.emo_ne_nop, if_neg h.emo_ne_text, if_true]
        simp [Emo.decode_from]
      | emoLaugh =>
        simp only [List.cons_append, decodeMessageF]
        rw [if_neg h.emo_ne_nop, if_neg h.emo_ne_text, if_true]
        simp [Emo.decode_from, h.laugh_ne_nop]
      | emoCry =>
        simp only [List.cons_append, decodeMessageF]
        rw [if_neg h.emo_ne_nop, if_neg h.emo_ne_text, if_true]
        simp [Emo.decode_from, h.cry_ne_nop, h.cry_ne_laugh]
      | @compound l v' hch =>
        simp only [List.length_cons] at hle hfuel
        have hc := ihC l v' hch (by omega) ((v' ++ rest).length + 1) f rest []
          (by simp only [List.length_append]; omega) (by omega)
        simp only [List.cons_append, decodeMessageF]
        rw [if_neg h.compound_ne_nop, if_neg h.compound_ne_text, if_neg h.compound_ne_emo,
          if_neg h.compound_ne_image, if_true]
        simp only [hc]
        simp
    have hB : ∀ l v, WireMsgsE c l v → v.length ≤ n + 1 → ∀ f rest acc, v.length < f →
        decodeMsgs (fun b2 => decodeMessageF c f b2) l.length (v ++ rest) acc
          = .ok (acc ++ l) rest := by
      intro l v hw hle f rest acc hf
      cases hw with
      | nil => simp [decodeMsgs]
      | @cons m l' v1 v2 h1 h2 =>
        have hp1 := h1.length_pos
        simp only [List.length_append] at hle hf
        simp only [List.length_cons, List.append_assoc, decodeMsgs, List.append_eq]
        simp only [hA m v1 h1 (by omega) f (v2 ++ rest) (by omega)]
        simp only [ihB l' v2 h2 (by omega) f rest (acc ++ [m]) (by omega)]
        simp
    have hC : ∀ l v, WireChunks c l v → v.length ≤ n + 1 → ∀ lf f rest acc,
        v.length < lf → v.length ≤ f →
        decodeChunksF c (fun b2 => decodeMessageF c f b2) lf (v ++ rest) acc
          = .ok (acc ++ l) rest := by
      intro l v hw hle lf f rest acc hlf hf
      obtain ⟨lp, rfl⟩ : ∃ lp, lf = lp + 1 := ⟨lf - 1, by omega⟩
      cases hw with
      | final hlt hne hmsgs =>
        rename_i v'
        simp only [List.length_cons] at hle hf
        simp only [List.cons_append, decodeChunksF, List.append_eq]
        rw [if_neg hne]
        exact ihB l v' hmsgs (by omega) f rest acc (by omega)
      | @overflow l₁ l₂ v1 v2 hlen hm hch =>
        simp only [List.length_cons, List.length_append] at hle hlf hf
        simp only [List.cons_append, List.append_assoc, decodeChunksF, List.append_eq,
          if_true, ← hlen]
        simp only [ihB l₁ v1 hm (by omega) f (v2 ++ rest) acc (by omega)]
        simp only [ihC l₂ v2 hch (by omega) lp f rest (acc ++ l₁) (by omega) (by omega)]
        simp
    exact ⟨hA, hB, hC⟩

/-- A whole buffer holding exactly one wire-format message encoding decodes to
the encoded message and consumes the whole buffer. -/
theorem decode_from_message_wire (c : Consts) (h : c.WF) {m : Message} {v : List Nat}
    (hw : WireMsg c m v) :
    Message.decode_from c v = .ok m [] := by
  have := (wire_roundtrip c h v.length).1 m v hw le_rfl (v.length + 1) [] (by omega)
  simpa [Message.decode_from] using this

/-- C1: For every Compound message encoding, whether the nested messages are
transmitted in a single chunk with a normal one-byte count or across multiple
chunks each introduced by the overflow sentinel count and a final
normal-count chunk, Message decode returns Compound holding exactly the
encoded nested messages, in their encoded order, across all chunks. -/
theorem compound_decode_ordered (c : Consts) (h : c.WF) (l : List Message)
    (v : List Nat) (henc : WireChunks c l v) :
    Message.decode_from c (c.MESSAGE_TYPE_CODE_COMPOUND :: v)
      = .ok (.compound l) [] :=
  decode_from_message_wire c h (WireMsg.compound henc)

/-- Witness for C1: a compound of three messages sent as one full overflow
chunk of two messages followed by a terminal chunk of one. -/
theorem compound_decode_ordered_witness :
    Message.decode_from refConsts [0xfa, 0xff, 0xfc, 0x82, 0x01, 0x01, 0xfc]
      = .ok (.compound [.nop, .emo .laugh, .nop]) [] :=
  compound_decode_ordered refConsts refConsts_wf _ _
    (WireChunks.overflow rfl
      (WireMsgsE.cons WireMsg.nop (WireMsgsE.cons WireMsg.emoLaugh WireMsgsE.nil))
      (WireChunks.final (by decide) (by decide)
        (WireMsgsE.cons WireMsg.nop WireMsgsE.nil)))

/-- C2: For every valid text encoding — any number of full slices each
introduced by the overflow-sentinel length prefix, followed by one terminal
slice with a normal 2-byte big-endian length prefix — text decode returns the
exact concatenation of all slices' decoded text as one string, regardless of
the number of slices; slice boundaries are invisible in the result.  A Rust
String is its UTF-8 bytes, so a slice's decoded text is the slice itself and
string concatenation is byte-list append. -/
theorem text_decode_concat (c : Consts) (u : List (List Nat)) (v rest : List Nat)
    (henc : WireSlices c u v) :
    String.decode_from c (v ++ rest) = .ok (u.foldr (· ++ ·) []) rest :=
  decode_from_text_wire c henc rest

/-- Witness for C2: one full 4-byte overflow slice followed by a terminal
1-byte slice decode to the 5-byte concatenation. -/
theorem text_decode_concat_witness :
    String.decode_from refConsts [0xff, 0xff, 72, 69, 76, 76, 0, 1, 79]
      = .ok [72, 69, 76, 76, 79] [] :=
  text_decode_concat refConsts [[72, 69, 76, 76], [79]]
    [0xff, 0xff, 72, 69, 76, 76, 0, 1, 79] []
    (WireSlices.overflow (by decide) rfl
      (WireSlices.final (by decide) (by decide) (by decide)))

/-- C3: The claim says a buffer with fewer bytes than a decode step requires
yields a Truncated-buffer error and never an out-of-bounds read.  The code
has no such check and its Error type has no such variant: on the buffer
0x80 (a Text tag whose 2-byte length prefix lies beyond the buffer end) the
code indexes past the buffer and panics, modelled here as the panicked
outcome. -/
theorem truncated_buffer_panics :
    Message.decode_from refConsts [0x80] = .panicked := rfl

/-- C4: Emoticon decode, given a cursor at a one-byte code, returns the
matching variant for each of the three codes of the fixed closed table, and
for every byte outside that table it fails with an invalid-emoticon-code
error carrying exactly the offending byte. -/
theorem emo_decode_table (c : Consts) (h : c.WF) (b : Nat) (r : List Nat) :
    Emo.decode_from c (c.MESSAGE_EMO_CODE_NOP :: r) = .ok .nop r ∧
    Emo.decode_from c (c.MESSAGE_EMO_CODE_LAUGH :: r) = .ok .laugh r ∧
    Emo.decode_from c (c.MESSAGE_EMO_CODE_CRY :: r) = .ok .cry r ∧
    (b ≠ c.MESSAGE_EMO_CODE_NOP → b ≠ c.MESSAGE_EMO_CODE_LAUGH →
      b ≠ c.MESSAGE_EMO_CODE_CRY →
      Emo.decode_from c (b :: r) = .err (.invalidEmoCode b) r) := by
  refine ⟨?_, ?_, ?_, ?_⟩
  · simp [Emo.decode_from]
  · simp [Emo.decode_from, h.laugh_ne_nop]
  · simp [Emo.decode_from, h.cry_ne_nop, h.cry_ne_laugh]
  · intro h1 h2 h3
    simp [Emo.decode_from, h1, h2, h3]

/-- Witness for C4: code 1 decodes to Laugh, and the out-of-table byte 9
yields InvalidEmoCode 9. -/
theorem emo_decode_table_witness :
    Emo.decode_from refConsts [1] = .ok .laugh [] ∧
    Emo.decode_from refConsts [9] = .err (.invalidEmoCode 9) [] :=
  ⟨(emo_decode_table refConsts refConsts_wf 9 []).2.1,
   (emo_decode_table refConsts refConsts_wf 9 []).2.2.2
     (by decide) (by decide) (by decide)⟩

/-- C5: For every tag byte outside the closed tag enumeration, Message decode
fails with an invalid-type-code error carrying exactly that offending byte,
and no partial Message is produced (the error outcome carries no message
value). -/
theorem unknown_tag_invalid_type_code (c : Consts) (b : Nat) (r : List Nat)
    (h1 : b ≠ c.MESSAGE_TYPE_CODE_NOP) (h2 : b ≠ c.MESSAGE_TYPE_CODE_TEXT)
    (h3 : b ≠ c.MESSAGE_TYPE_CODE_EMO) (h4 : b ≠ c.MESSAGE_TYPE_CODE_IMAGE)
    (h5 : b ≠ c.MESSAGE_TYPE_CODE_COMPOUND) :
    Message.decode_from c (b :: r) = .err (.invalidTypeCode b) r := by
  simp only [Message.decode_from, List.length_cons, decodeMessageF]
  simp [h1, h2, h3, h4, h5]

/-- Witness for C5: the spec's example tag 0xff yields InvalidTypeCode 0xff. -/
theorem unknown_tag_invalid_type_code_witness :
    Message.decode_from refConsts [0xff] = .err (.invalidTypeCode 0xff) [] :=
  unknown_tag_invalid_type_code refConsts 0xff []
    (by decide) (by decide) (by decide) (by decide) (by decide)

/-- C6: The claim says a text slice whose bytes are not valid UTF-8 makes
decode fail with a malformed-payload error returned to the caller.  The code
instead unwraps str::from_utf8 and panics, and its Error type has no such
variant: on the buffer 0x80 0x00 0x01 0xff (a terminal 1-byte slice holding
the invalid byte 0xff) the decode aborts, modelled here as the panicked
outcome. -/
theorem malformed_text_panics :
    Message.decode_from refConsts [0x80, 0x00, 0x01, 0xff] = .panicked := rfl

/-- C7: The claim says a buffer whose first byte is the Image tag always
fails with an unimplemented-payload error distinct from invalid-type-code.
The code recognizes the tag but executes an unconditional panic, and its
Error type has no unimplemented-payload variant: on the buffer 0x84 (the
Image tag of the modelled constants) the decode aborts, modelled here as the
panicked outcome; no Image message is ever returned. -/
theorem image_tag_panics :
    Message.decode_from refConsts [0x84] = .panicked := rfl

/-- C8: For every 2-byte text length prefix whose value is not the overflow
sentinel — including the value exactly equal to the maximum slice length —
text decode treats the slice as a normal terminal slice, reading exactly that
many bytes and stopping, not as a continuation. -/
theorem nonsentinel_length_terminal (c : Consts) (b0 b1 : Nat) (r : List Nat)
    (hne : b0 * 256 + b1 ≠ c.TEXT_OVERFLOW_FLAG)
    (hlen : b0 * 256 + b1 ≤ r.length)
    (hv : validUtf8 (r.take (b0 * 256 + b1)) = true) :
    String.decode_from c (b0 :: b1 :: r)
      = .ok (r.take (b0 * 256 + b1)) (r.drop (b0 * 256 + b1)) := by
  simp only [String.decode_from, List.length_cons, decodeStringLoopF]
  rw [if_neg hne, if_pos hlen, if_pos hv]
  simp

/-- Witness for C8: a length prefix of 4, exactly the modelled maximum slice
length but not the sentinel, is a terminal slice of exactly 4 bytes. -/
theorem nonsentinel_length_terminal_witness :
    String.decode_from refConsts [0, 4, 65, 66, 67, 68] = .ok [65, 66, 67, 68] [] :=
  nonsentinel_length_terminal refConsts 0 4 [65, 66, 67, 68]
    (by decide) (by decide) (by decide)

/-- C9: When decode fails with an invalid-type-code or invalid-emoticon-code
error, the cursor has advanced by exactly one byte past the offending byte
before the error is returned: the error outcome's remaining buffer is
exactly the input after the offending tag or code byte. -/
theorem error_consumes_offending_byte (c : Consts) (h : c.WF) (b e : Nat)
    (r s : List Nat)
    (hb1 : b ≠ c.MESSAGE_TYPE_CODE_NOP) (hb2 : b ≠ c.MESSAGE_TYPE_CODE_TEXT)
    (hb3 : b ≠ c.MESSAGE_TYPE_CODE_EMO) (hb4 : b ≠ c.MESSAGE_TYPE_CODE_IMAGE)
    (hb5 : b ≠ c.MESSAGE_TYPE_CODE_COMPOUND)
    (he1 : e ≠ c.MESSAGE_EMO_CODE_NOP) (he2 : e ≠ c.MESSAGE_EMO_CODE_LAUGH)
    (he3 : e ≠ c.MESSAGE_EMO_CODE_CRY) :
    Message.decode_from c (b :: r) = .err (.invalidTypeCode b) r ∧
    Emo.decode_from c (e :: s) = .err (.invalidEmoCode e) s ∧
    Message.decode_from c (c.MESSAGE_TYPE_CODE_EMO :: e :: s)
      = .err (.invalidEmoCode e) s := by
  refine ⟨?_, ?_, ?_⟩
  · simp only [Message.decode_from, List.length_cons, decodeMessageF]
    simp [hb1, hb2, hb3, hb4, hb5]
  · simp [Emo.decode_from, he1, he2, he3]
  · simp only [Message.decode_from, List.length_cons, decodeMessageF]
    rw [if_neg h.emo_ne_nop, if_neg h.emo_ne_text, if_true]
    simp [Emo.decode_from, he1, he2, he3]

/-- Witness for C9: the unknown tag 0x42 leaves exactly its 1-byte suffix,
and the unknown emoticon code 7 (alone and behind the Emo tag) leaves
exactly the bytes after it. -/
theorem error_consumes_offending_byte_witness :
    Message.decode_from refConsts [0x42, 0x01] = .err (.invalidTypeCode 0x42) [0x01] ∧
    Emo.decode_from refConsts [7] = .err (.invalidEmoCode 7) [] ∧
    Message.decode_from refConsts [0x82, 7] = .err (.invalidEmoCode 7) [] :=
  error_consumes_offending_byte refConsts refConsts_wf 0x42 7 [0x01] []
    (by decide) (by decide) (by decide) (by decide) (by decide)
    (by decide) (by decide) (by decide)

/-- C10: A terminal text slice may declare length zero: the Text tag followed
by the 2-byte length prefix 0x0000 decodes to a Text message containing the
empty string, consuming exactly 3 bytes (every remaining byte is left); more
generally a terminal length prefix of 0 appends nothing and terminates the
slice loop. -/
theorem empty_terminal_slice (c : Consts) (h : c.WF) (r : List Nat) :
    Message.decode_from c (c.MESSAGE_TYPE_CODE_TEXT :: 0 :: 0 :: r) = .ok (.text []) r ∧
    ∀ f acc s, decodeStringLoopF c (f + 1) (0 :: 0 :: s) acc = .ok acc s := by
  have h0 : (0 : Nat) ≠ c.TEXT_OVERFLOW_FLAG := by
    have := h.text_max_lt_flag
    omega
  have hloop : ∀ f acc s, decodeStringLoopF c (f + 1) (0 :: 0 :: s) acc = .ok acc s := by
    intro f acc s
    simp only [decodeStringLoopF, Nat.zero_mul, Nat.zero_add, List.take_zero]
    rw [if_neg h0, if_pos (Nat.zero_le _), if_pos (show validUtf8 [] = true from rfl)]
    simp
  refine ⟨?_, hloop⟩
  simp only [Message.decode_from, List.length_cons, decodeMessageF]
  rw [if_neg h.text_ne_nop, if_true]
  have hs : String.decode_from c (0 :: 0 :: r) = .ok [] r := by
    simp only [String.decode_from, List.length_cons]
    exact hloop (r.length + 1 + 1) [] r
  simp only [hs]

/-- Witness for C10: the 3-byte buffer 0x80 0x00 0x00 decodes to the empty
Text with nothing left over. -/
theorem empty_terminal_slice_witness :
    Message.decode_from refConsts [0x80, 0, 0] = .ok (.text []) [] :=
  (empty_terminal_slice refConsts refConsts_wf []).1

end Itre
